import Mathlib

/-!
Shallow embedding of `xtas/tasks/_semafor.py`: the long-lived external
parser adapter (`_Semafor`, module-level `call_semafor`) and the consumer
transform `add_frames`, together with a small interleaving semantics for
the singleton lock discipline.

Conventions of the embedding:
* The external process is modelled by its observable streams: the input
  stream is a list of write/flush events, the output stream is the list
  of lines that `readline` will yield (an exhausted list models
  end-of-file, where Python's `readline` returns the empty string).
* Python exceptions are modelled by `Except PyErr`; a raised exception
  discards the locally mutated state, which no claim observes.
* `json.loads` is external library code, so the adapter is parametric in
  a decoder `jsonLoads : String → Except PyErr J`.
* Python's `str.strip` is modelled by `pyStrip` (drop whitespace at both
  ends), and Python's stable `sorted` by `List.insertionSort`, which is
  also stable.
-/

/-- Python exceptions that the embedded code can raise. -/
inductive PyErr where
  /-- Raised as `Exception("Unexpected EOF")` in `_read_next_output`. -/
  | eof
  /-- Raised as `ValueError` from unpacking `line, = lines` when `lines` has `got` elements, `got ≠ 1`. -/
  | valueErrorUnpack (got : Nat)
  /-- a `json.loads` decoding failure. -/
  | jsonError
  /-- Raised as `KeyError` on a missing mapping key. -/
  | keyError (key : String)
  /-- Raised as `NameError` on an undefined variable. -/
  | nameError (name : String)
  /-- Raised as `AssertionError` from a failed `assert`. -/
  | assertionError
  /-- Raised as `IndexError` from an out-of-range list subscript. -/
  | indexError
deriving DecidableEq, Repr

/-- Python's `str.strip()`: remove leading and trailing whitespace. -/
def pyStrip (s : String) : String :=
  String.mk (((s.data.dropWhile Char.isWhitespace).reverse.dropWhile Char.isWhitespace).reverse)

/-- One event on the external process's input stream (`self.process.stdin`). -/
inductive StdinEvent where
  | write (s : String)
  | flush
deriving DecidableEq, Repr

/-- The `_Semafor` adapter's observable state: the events issued on the
process's input stream, the lines remaining on its output stream, and an
identifier for the launched process (the process handle). -/
structure Semafor where
  stdinEvents : List StdinEvent
  stdoutLines : List String
  processId : Nat
deriving DecidableEq, Repr

/-- Embedding of `_Semafor._read_next_output` (lines 64-71): read lines until the
sentinel `>>>`; an empty string from `readline` (end-of-file) raises
`Exception("Unexpected EOF")`.  Returns the batch of lines before the
sentinel and the rest of the stream after it. -/
def readNextOutput : List String → Except PyErr (List String × List String)
  | [] => .error .eof
  | l :: ls =>
    if l = "" then .error .eof
    else if pyStrip l = ">>>" then .ok ([], ls)
    else
      match readNextOutput ls with
      | .error e => .error e
      | .ok (batch, rest) => .ok (l :: batch, rest)

/-- Characterisation of the stream states on which `_read_next_output`
hits end-of-file: the stream yields an empty string or runs out before
any sentinel line. -/
def eofBeforeSentinel : List String → Bool
  | [] => true
  | l :: ls =>
    if l = "" then true
    else if pyStrip l = ">>>" then false
    else eofBeforeSentinel ls

/-- Embedding of `_Semafor.call_semafor` (lines 73-79): write the stripped request plus
two newlines, flush, read the next output batch, require exactly one line
(`line, = lines`), and decode it with `json.loads` (the parameter
`jsonLoads`). -/
def callSemaforM {J : Type} (jsonLoads : String → Except PyErr J)
    (st : Semafor) (conll : String) : Except PyErr (J × Semafor) :=
  let st1 : Semafor :=
    { st with stdinEvents :=
        st.stdinEvents ++ [.write (pyStrip conll), .write "\n\n", .flush] }
  match readNextOutput st1.stdoutLines with
  | .error e => .error e
  | .ok (lines, rest) =>
    match lines with
    | [line] =>
      match jsonLoads line with
      | .error e => .error e
      | .ok v => .ok (v, { st1 with stdoutLines := rest })
    | _ => .error (.valueErrorUnpack lines.length)

/-- Embedding of `os.path.join` restricted to the two-component form used here. -/
def pathJoin (a b : String) : String := a ++ "/" ++ b

/-- The launch command built in `start_semafor` (lines 55-58). -/
def semaforCmd (semaforHome modelDir : String) : List String :=
  ["java", "-Xms4g", "-Xmx4g", "-cp",
   pathJoin (pathJoin semaforHome "target") "Semafor-3.0-alpha-04.jar",
   "edu.cmu.cs.lti.ark.fn.SemaforInteractive",
   "model-dir:" ++ modelDir]

/-- Result of `start_semafor`: whether `subprocess.Popen` was reached
(a process was launched) and the outcome. -/
structure StartOutcome where
  launched : Bool
  result : Except PyErr Semafor
deriving Repr

/-- Embedding of `_Semafor.start_semafor` (lines 52-62): `os.environ["SEMAFOR_HOME"]`
(a `KeyError` if absent, before any process is launched),
`os.environ.get("MALT_MODEL_DIR", semafor_home)`, launch of the process
(whose pending output lines are `procOut` and whose handle is `pid`), and
consumption of the readiness banner with `_read_next_output`. -/
def startSemafor (env : List (String × String)) (procOut : List String)
    (pid : Nat) : StartOutcome :=
  match env.lookup "SEMAFOR_HOME" with
  | none => { launched := false, result := .error (.keyError "SEMAFOR_HOME") }
  | some semaforHome =>
    let modelDir := (env.lookup "MALT_MODEL_DIR").getD semaforHome
    let _cmd := semaforCmd semaforHome modelDir
    match readNextOutput procOut with
    | .error e => { launched := true, result := .error e }
    | .ok (_, rest) =>
      { launched := true,
        result := .ok { stdinEvents := [], stdoutLines := rest, processId := pid } }

/-- The module-level singleton state: `_Semafor.singleton` (unset until
first successful construction), plus instrumentation counting how many
`_Semafor()` constructions were entered and how many processes were
launched by `Popen`. -/
structure GlobalState where
  singleton : Option Semafor
  instancesCreated : Nat
  launches : Nat
deriving Repr

/-- The module-level `call_semafor` (lines 85-92), body of the
`with _SINGLETON_LOCK` block: construct the singleton if absent
(`hasattr` check; a failed construction leaves the attribute unset), then
delegate to the instance's `call_semafor`.  `env` is `os.environ` and
`procOut` the output stream of the process a construction would launch.
The state is returned even when an exception propagates. -/
def callSemaforTop {J : Type} (jsonLoads : String → Except PyErr J)
    (g : GlobalState) (env : List (String × String)) (procOut : List String)
    (conll : String) : GlobalState × Except PyErr J :=
  match g.singleton with
  | none =>
    let g1 : GlobalState := { g with instancesCreated := g.instancesCreated + 1 }
    let so := startSemafor env procOut g.launches
    let g2 : GlobalState :=
      { g1 with launches := g1.launches + (if so.launched then 1 else 0) }
    match so.result with
    | .error e => (g2, .error e)
    | .ok inst =>
      let g3 : GlobalState := { g2 with singleton := some inst }
      match callSemaforM jsonLoads inst conll with
      | .error e => (g3, .error e)
      | .ok (v, inst1) => ({ g3 with singleton := some inst1 }, .ok v)
  | some inst =>
    match callSemaforM jsonLoads inst conll with
    | .error e => (g, .error e)
    | .ok (v, inst1) => ({ g with singleton := some inst1 }, .ok v)

/-! ## The consumer transform `add_frames` (lines 113-154) -/

/-- A token of the SAF document: `sentence` index, intra-sentence
`offset`, and `id`. -/
structure Token where
  sentence : Int
  offset : Int
  id : Nat
deriving DecidableEq, Repr

/-- A tree entry of the SAF document: its `sentence` index (already
numeric; the source applies `int(...)`) and the raw tree string. -/
structure TreeEntry where
  sentence : Int
  tree : String
deriving DecidableEq, Repr

/-- A token-offset span of the parser's response, keys `start` and `end`
(`stop` here, since `end` is reserved); `range(start, end)` in the source. -/
structure Span where
  start : Nat
  stop : Nat
deriving DecidableEq, Repr

/-- A named span set of the parser's response: both `frame["target"]`
and each frame element carry a `name` and a list of `spans`. -/
structure SpanSet where
  name : String
  spans : List Span
deriving DecidableEq, Repr

/-- One entry of a response frame's `annotationSets` list, carrying its
`frameElements`. -/
structure AnnotationSet where
  frameElements : List SpanSet
deriving DecidableEq, Repr

/-- One frame of the parser's response: its `target` and its
`annotationSets`. -/
structure SemFrame where
  target : SpanSet
  annotationSets : List AnnotationSet
deriving DecidableEq, Repr

/-- The decoded per-sentence response of `call_semafor` as used by
`add_frames`: whether the mapping contains an `"error"` key, and its
`"frames"` and `"tokens"` entries. -/
structure SentResponse where
  hasError : Bool
  frames : List SemFrame
  tokens : List String
deriving DecidableEq, Repr

/-- A produced frame element record (`{"name": ..., "target": ...}`). -/
structure SafElem where
  name : String
  target : List Nat
deriving DecidableEq, Repr

/-- A produced frame record appended to `saf_article['frames']`. -/
structure SafFrame where
  sentence : Int
  name : String
  target : List Nat
  elements : List SafElem
deriving DecidableEq, Repr

/-- A provenance record appended to `header['processed']`
(`module` name and `started` timestamp). -/
structure Provenance where
  moduleName : String
  started : String
deriving DecidableEq, Repr

/-- The `header` mapping of a SAF document; `processed` is `none` when
the key is absent (subscripting then raises `KeyError`). -/
structure SafHeader where
  processed : Option (List Provenance)
deriving DecidableEq, Repr

/-- An entry of the document's `errors` list.  Line 132 of the source
raises `NameError` before ever building such an entry, so `add_frames`
never constructs one; the field only preserves pre-existing data. -/
structure ErrEntry where
  sentence : Int
deriving DecidableEq, Repr

/-- The SAF document (`saf_article`): optional fields model keys that may
be absent from the underlying mapping. -/
structure SafArticle where
  header : Option SafHeader
  tokens : List Token
  trees : List TreeEntry
  frames : Option (List SafFrame)
  errors : Option (List ErrEntry)
deriving DecidableEq, Repr

/-- Lines 127-129: the document's tokens of sentence `sid`, sorted by
numeric `offset` (Python's `sorted` is stable, as is insertion sort). -/
def sentenceTokens (doc : SafArticle) (sid : Int) : List Token :=
  (doc.tokens.filter fun w => w.sentence = sid).insertionSort
    fun a b => a.offset ≤ b.offset

/-- The token ids of one span: `tokens[i]['id']` for
`i in range(span["start"], span["end"])`; an out-of-range subscript
raises `IndexError`. -/
def spanTokenIds (tokens : List Token) (s : Span) : Except PyErr (List Nat) :=
  (List.range' s.start (s.stop - s.start)).mapM fun i =>
    match tokens[i]? with
    | some tok => .ok tok.id
    | none => .error .indexError

/-- Embedding of `get_tokenids` (lines 139-142): concatenate the token ids of every
span of `f`. -/
def get_tokenids (tokens : List Token) (f : SpanSet) : Except PyErr (List Nat) :=
  (f.spans.mapM (spanTokenIds tokens)).map List.flatten

/-- Lines 144-151: build the frame record for one response frame —
sentence id, the target's name, the target's token ids, and one element
record per entry of `frame["annotationSets"][0]["frameElements"]`
(an empty `annotationSets` raises `IndexError`). -/
def buildFrame (sid : Int) (tokens : List Token) (frame : SemFrame) :
    Except PyErr SafFrame :=
  match get_tokenids tokens frame.target with
  | .error e => .error e
  | .ok targetIds =>
    match frame.annotationSets.head? with
    | none => .error .indexError
    | some aset =>
      match aset.frameElements.mapM (fun a =>
          (get_tokenids tokens a).map fun ids => SafElem.mk a.name ids) with
      | .error e => .error e
      | .ok elems =>
        .ok { sentence := sid, name := frame.target.name,
              target := targetIds, elements := elems }

/-- The body of the `for t in saf_article['trees']` loop (lines 123-152),
for one tree entry.  `toConll` is the external one-shot conversion
process (`to_conll`) and `callSem` the decoded response of the adapter
for a given conll string.  A response carrying an `"error"` key reaches
line 132, which reads the undefined variable `module` and therefore
raises `NameError` (the error entry is never built). -/
def processTree (toConll : String → String) (callSem : String → SentResponse)
    (doc : SafArticle) (t : TreeEntry) : Except PyErr SafArticle :=
  let sid := t.sentence
  let conll := toConll t.tree
  let tokens := sentenceTokens doc sid
  let sent := callSem conll
  if sent.hasError then
    .error (.nameError "module")
  else if tokens.length = sent.tokens.length then
    match sent.frames.mapM (buildFrame sid tokens) with
    | .error e => .error e
    | .ok newFrames =>
      .ok { doc with frames := some (doc.frames.getD [] ++ newFrames) }
  else
    .error .assertionError

/-- Lines 118-121 of `add_frames`: reset `frames` to the empty list, then
append a provenance record to `header['processed']`; a missing `header`
or `processed` key raises `KeyError`.  `now` is the
`datetime.datetime.now().isoformat()` timestamp. -/
def initArticle (now : String) (doc : SafArticle) : Except PyErr SafArticle :=
  let doc1 : SafArticle := { doc with frames := some [] }
  match doc1.header with
  | none => .error (.keyError "header")
  | some hdr =>
    match hdr.processed with
    | none => .error (.keyError "processed")
    | some procd =>
      let hdr1 : SafHeader :=
        { hdr with processed := some (procd ++ [⟨"semafor", now⟩]) }
      .ok { doc1 with header := some hdr1 }

/-- Embedding of `add_frames` (lines 113-154): initialise the document, then process
every tree in order, threading the mutated document. -/
def addFrames (toConll : String → String) (callSem : String → SentResponse)
    (now : String) (doc : SafArticle) : Except PyErr SafArticle :=
  match initArticle now doc with
  | .error e => .error e
  | .ok d => d.trees.foldlM (processTree toConll callSem) d

/-! ## Lock discipline of the module-level `call_semafor`

Lines 89-92 hold `_SINGLETON_LOCK` around the whole body: lazy
construction plus the instance call.  The interleaving semantics below
has threads whose programs are `acquire`, then their wire-level events,
then `release` — the shape the source forces — while the step relation
itself constrains only `acquire`/`release` by the lock, never wire
events, so mutual exclusion of the exchanges is a theorem, not an
assumption. -/

/-- A wire-level event of one caller's exchange against the process. -/
inductive WireAct where
  | write (s : String)
  | flush
  | read (s : String)
deriving DecidableEq, Repr

/-- One action of a caller thread. -/
inductive ThreadAct where
  | acquire
  | release
  | wire (w : WireAct)
deriving DecidableEq, Repr

/-- The wire events of one request/response round trip of
`_Semafor.call_semafor`: the two writes, the flush, and the reads of the
response lines. -/
def exchangeActs (conll : String) (respLines : List String) : List WireAct :=
  [.write (pyStrip conll), .write "\n\n", .flush] ++ respLines.map .read

/-- The program of one caller of the module-level `call_semafor`: the
whole body (`body` lists its wire events, lazy startup reads included)
runs between acquiring and releasing `_SINGLETON_LOCK`. -/
def callerProgram (body : List WireAct) : List ThreadAct :=
  .acquire :: (body.map .wire ++ [.release])

/-- The interleaved system: each thread's remaining program, the lock
owner, and the global event trace. -/
structure LockSys where
  progs : Nat → List ThreadAct
  owner : Option Nat
  trace : List (Nat × ThreadAct)

/-- Pointwise update of a thread's program. -/
def updProg (f : Nat → List ThreadAct) (t : Nat) (p : List ThreadAct) :
    Nat → List ThreadAct :=
  fun u => if u = t then p else f u

/-- Small-step interleaving semantics.  Acquire requires the lock to be
free, release requires ownership; a wire event is not constrained by the
lock at all. -/
inductive LockStep : LockSys → LockSys → Prop where
  | acq (s : LockSys) (t : Nat) (rest : List ThreadAct)
      (hp : s.progs t = .acquire :: rest) (ho : s.owner = none) :
      LockStep s { progs := updProg s.progs t rest, owner := some t,
                   trace := s.trace ++ [(t, .acquire)] }
  | rel (s : LockSys) (t : Nat) (rest : List ThreadAct)
      (hp : s.progs t = .release :: rest) (ho : s.owner = some t) :
      LockStep s { progs := updProg s.progs t rest, owner := none,
                   trace := s.trace ++ [(t, .release)] }
  | wireStep (s : LockSys) (t : Nat) (w : WireAct) (rest : List ThreadAct)
      (hp : s.progs t = .wire w :: rest) :
      LockStep s { progs := updProg s.progs t rest, owner := s.owner,
                   trace := s.trace ++ [(t, .wire w)] }

/-- The initial system: every thread still has to run its full caller
program; the lock is free and the trace empty. -/
def initSys (bodies : Nat → List WireAct) : LockSys :=
  { progs := fun t => callerProgram (bodies t), owner := none, trace := [] }

/-- One-event evolution of the lock owner along a trace, `none` when the
event is inconsistent with the ownership discipline (an acquire while
held, or a release or wire event by a non-owner). -/
def stepOwner : Nat × ThreadAct → Option Nat → Option (Option Nat)
  | (t, .acquire), none => some (some t)
  | (_, .acquire), some _ => none
  | (t, .release), some u => if t = u then some none else none
  | (_, .release), none => none
  | (t, .wire _), some u => if t = u then some (some u) else none
  | (_, .wire _), none => none

/-- Owner evolution along a whole trace. -/
def traceOwner : List (Nat × ThreadAct) → Option Nat → Option (Option Nat)
  | [], o => some o
  | e :: tr, o =>
    match stepOwner e o with
    | none => none
    | some o1 => traceOwner tr o1

/-! ## Helper lemmas -/

/-- The read loop raises `Unexpected EOF` exactly on the streams
characterised by `eofBeforeSentinel`; moreover `eof` is the only error it
can produce. -/
theorem readNextOutput_eof_iff (out : List String) :
    readNextOutput out = .error .eof ↔ eofBeforeSentinel out = true := by
  induction out with
  | nil => simp [readNextOutput, eofBeforeSentinel]
  | cons l ls ih =>
    by_cases h0 : l = ""
    · simp [readNextOutput, eofBeforeSentinel, h0]
    · by_cases h1 : pyStrip l = ">>>"
      · simp [readNextOutput, eofBeforeSentinel, h0, h1]
      · simp only [readNextOutput, eofBeforeSentinel, h0, h1, if_false]
        rw [← ih]
        cases hr : readNextOutput ls with
        | error e => simp
        | ok p => simp

/-- A successful `call_semafor` leaves the process handle unchanged. -/
theorem callSemaforM_processId {J : Type} (jsonLoads : String → Except PyErr J)
    (st : Semafor) (conll : String) (v : J) (st1 : Semafor)
    (h : callSemaforM jsonLoads st conll = .ok (v, st1)) :
    st1.processId = st.processId := by
  unfold callSemaforM at h
  cases hb : readNextOutput st.stdoutLines with
  | error e => simp [hb] at h
  | ok p =>
    obtain ⟨lines, rest⟩ := p
    simp only [hb] at h
    match lines with
    | [] => simp at h
    | [line] =>
      cases hj : jsonLoads line with
      | error e => simp [hj] at h
      | ok w =>
        simp only [hj] at h
        cases h
        rfl
    | a :: b :: bs => simp at h

/-! ## Claim theorems -/

/-- C1: in `_Semafor.call_semafor`, the batch of output lines read up to
the next `>>>` sentinel must contain exactly one line; a batch of zero or
two-or-more lines makes the call raise (`ValueError` from the unpacking
`line, = lines`) rather than silently recover, and every successful call
had a one-line batch. -/
theorem call_batch_exactly_one_line {J : Type}
    (jsonLoads : String → Except PyErr J) (st : Semafor) (conll : String)
    (lines rest : List String)
    (h : readNextOutput st.stdoutLines = .ok (lines, rest)) :
    (lines.length ≠ 1 →
      callSemaforM jsonLoads st conll = .error (.valueErrorUnpack lines.length))
    ∧ (∀ v st1, callSemaforM jsonLoads st conll = .ok (v, st1) →
      lines.length = 1) := by
  constructor
  · intro hne
    unfold callSemaforM
    simp only
    rw [h]
    match lines, hne with
    | [], _ => rfl
    | a :: b :: bs, _ => rfl
  · intro v st1 hc
    unfold callSemaforM at hc
    simp only at hc
    rw [h] at hc
    match lines, hc with
    | [line], _ => rfl
    | [], hc => simp at hc
    | a :: b :: bs, hc => simp at hc

/-- C1 witness: a two-line batch at a concrete state raises the unpack
error. -/
theorem call_batch_exactly_one_line_witness :
    readNextOutput ["a", "b", ">>>"] = .ok (["a", "b"], [])
    ∧ callSemaforM (fun s => .ok s.length) ⟨[], ["a", "b", ">>>"], 0⟩ "x" =
        .error (.valueErrorUnpack 2) :=
  ⟨rfl, (call_batch_exactly_one_line (fun s => .ok s.length)
      ⟨[], ["a", "b", ">>>"], 0⟩ "x" ["a", "b"] [] rfl).1 (by decide)⟩

/-- C2: whenever the output stream reaches end-of-file (the stream yields
an empty string or runs out) before the sentinel `>>>` is observed, the
read raises the fatal `Unexpected EOF` exception — during startup while
awaiting the readiness banner as well as during a call while awaiting a
response — and the public entry point propagates it leaving the module
state untouched: the singleton and both counters are unchanged, so no
retry, reconnection or restart happens. -/
theorem eof_before_sentinel_fatal {J : Type}
    (jsonLoads : String → Except PyErr J) (out : List String)
    (h : eofBeforeSentinel out = true) :
    readNextOutput out = .error .eof
    ∧ (∀ env home pid, env.lookup "SEMAFOR_HOME" = some home →
        (startSemafor env out pid).result = .error .eof)
    ∧ (∀ st conll, st.stdoutLines = out →
        callSemaforM jsonLoads st conll = .error .eof)
    ∧ (∀ g inst env procOut conll, g.singleton = some inst →
        inst.stdoutLines = out →
        callSemaforTop jsonLoads g env procOut conll = (g, .error .eof)) := by
  have hr : readNextOutput out = .error .eof := (readNextOutput_eof_iff out).mpr h
  have hcall : ∀ st : Semafor, ∀ conll, st.stdoutLines = out →
      callSemaforM jsonLoads st conll = .error .eof := by
    intro st conll hst
    unfold callSemaforM
    simp only
    rw [hst, hr]
  refine ⟨hr, ?_, hcall, ?_⟩
  · intro env home pid henv
    unfold startSemafor
    rw [henv]
    simp only [hr]
  · intro g inst env procOut conll hg hst
    unfold callSemaforTop
    rw [hg]
    simp only [hcall inst conll hst]

/-- C2 witness: a concrete sentinel-free stream is fatal in all four
positions. -/
theorem eof_before_sentinel_fatal_witness :
    eofBeforeSentinel ["banner"] = true
    ∧ readNextOutput ["banner"] = .error .eof
    ∧ (startSemafor [("SEMAFOR_HOME", "/s")] ["banner"] 0).result = .error .eof
    ∧ callSemaforM (fun s => .ok s.length) ⟨[], ["banner"], 3⟩ "x" = .error .eof
    ∧ callSemaforTop (fun s => .ok s.length)
        ⟨some ⟨[], ["banner"], 3⟩, 1, 1⟩ [] [] "x" =
        (⟨some ⟨[], ["banner"], 3⟩, 1, 1⟩, .error .eof) := by
  have h := eof_before_sentinel_fatal (fun s => .ok s.length) ["banner"] (by decide)
  exact ⟨by decide, h.1, h.2.1 [("SEMAFOR_HOME", "/s")] "/s" 0 rfl,
    h.2.2.1 ⟨[], ["banner"], 3⟩ "x" rfl,
    h.2.2.2 ⟨some ⟨[], ["banner"], 3⟩, 1, 1⟩ ⟨[], ["banner"], 3⟩ [] [] "x" rfl rfl⟩

/-- C3: a successful call writes exactly the stripped request text
followed by two newline characters and a flush to the process's input
stream, and returns the JSON-decoding of the single response payload
line; the public entry point with an existing singleton returns exactly
that value and stores the advanced instance. -/
theorem call_effect_and_decoded_result {J : Type}
    (jsonLoads : String → Except PyErr J) (inst : Semafor) (conll : String)
    (v : J) (inst1 : Semafor)
    (h : callSemaforM jsonLoads inst conll = .ok (v, inst1)) :
    inst1.stdinEvents =
      inst.stdinEvents ++ [.write (pyStrip conll), .write "\n\n", .flush]
    ∧ (∃ line rest, readNextOutput inst.stdoutLines = .ok ([line], rest)
        ∧ jsonLoads line = .ok v ∧ inst1.stdoutLines = rest)
    ∧ (∀ g env procOut, g.singleton = some inst →
        callSemaforTop jsonLoads g env procOut conll =
          ({ g with singleton := some inst1 }, .ok v)) := by
  refine ⟨?_, ?_, ?_⟩
  · unfold callSemaforM at h
    cases hb : readNextOutput inst.stdoutLines with
    | error e => simp [hb] at h
    | ok p =>
      obtain ⟨lines, rest⟩ := p
      simp only [hb] at h
      match lines, h with
      | [line], h =>
        cases hj : jsonLoads line with
        | error e => simp [hj] at h
        | ok w => simp only [hj] at h; cases h; rfl
      | [], h => simp at h
      | a :: b :: bs, h => simp at h
  · unfold callSemaforM at h
    cases hb : readNextOutput inst.stdoutLines with
    | error e => simp [hb] at h
    | ok p =>
      obtain ⟨lines, rest⟩ := p
      simp only [hb] at h
      match lines, h with
      | [line], h =>
        cases hj : jsonLoads line with
        | error e => simp [hj] at h
        | ok w =>
          simp only [hj] at h
          cases h
          exact ⟨line, rest, rfl, hj, rfl⟩
      | [], h => simp at h
      | a :: b :: bs, h => simp at h
  · intro g env procOut hg
    unfold callSemaforTop
    rw [hg]
    simp only [h]

/-- C3 witness: a concrete successful exchange. -/
theorem call_effect_and_decoded_result_witness :
    callSemaforM (fun s => .ok s.length) ⟨[.flush], ["ab", ">>>"], 5⟩ " x " =
      .ok (2, ⟨[.flush, .write "x", .write "\n\n", .flush], [], 5⟩)
    ∧ (⟨[.flush, .write "x", .write "\n\n", .flush], [], 5⟩ : Semafor).stdinEvents =
      (⟨[.flush], ["ab", ">>>"], 5⟩ : Semafor).stdinEvents ++
        [.write (pyStrip " x "), .write "\n\n", .flush] := by
  have h : callSemaforM (fun s => .ok s.length)
      ⟨[.flush], ["ab", ">>>"], 5⟩ " x " =
      .ok (2, ⟨[.flush, .write "x", .write "\n\n", .flush], [], 5⟩) := rfl
  exact ⟨h, (call_effect_and_decoded_result (fun s => .ok s.length)
    ⟨[.flush], ["ab", ">>>"], 5⟩ " x " 2
    ⟨[.flush, .write "x", .write "\n\n", .flush], [], 5⟩ h).1⟩

/-- C6: with `SEMAFOR_HOME` absent from the environment, `start_semafor`
fails with the configuration `KeyError` before launching any process
(`launched = false`, and the outcome does not depend on the process
output at all since the lookup precedes `Popen`), and first use through
the public entry point propagates the error uncaught — the singleton
stays unset and no launch is counted, so nothing is retried inside the
call. -/
theorem missing_home_config_error {J : Type}
    (jsonLoads : String → Except PyErr J) (env : List (String × String))
    (h : env.lookup "SEMAFOR_HOME" = none) :
    (∀ procOut pid, startSemafor env procOut pid =
      { launched := false, result := .error (.keyError "SEMAFOR_HOME") })
    ∧ (∀ g procOut conll, g.singleton = none →
        callSemaforTop jsonLoads g env procOut conll =
          ({ g with instancesCreated := g.instancesCreated + 1 },
           .error (.keyError "SEMAFOR_HOME"))) := by
  have hs : ∀ procOut pid, startSemafor env procOut pid =
      { launched := false, result := .error (.keyError "SEMAFOR_HOME") } := by
    intro procOut pid
    unfold startSemafor
    rw [h]
  refine ⟨hs, ?_⟩
  intro g procOut conll hg
  unfold callSemaforTop
  rw [hg]
  dsimp only
  simp [hs]

/-- C6 witness: a concrete environment without `SEMAFOR_HOME`. -/
theorem missing_home_config_error_witness :
    startSemafor [("MALT_MODEL_DIR", "/m")] [">>>"] 0 =
      { launched := false, result := .error (.keyError "SEMAFOR_HOME") }
    ∧ callSemaforTop (fun s => .ok s.length) ⟨none, 0, 0⟩
        [("MALT_MODEL_DIR", "/m")] [">>>"] "x" =
      (⟨none, 1, 0⟩, .error (.keyError "SEMAFOR_HOME")) := by
  have h := missing_home_config_error (fun s => .ok s.length)
    [("MALT_MODEL_DIR", "/m")] (by decide)
  exact ⟨h.1 [">>>"] 0, h.2 ⟨none, 0, 0⟩ [">>>"] "x" rfl⟩

/-- C7 (amended): once the singleton exists, every call through the
public entry point reuses it — no new instance is constructed and no new
process is launched, and the stored instance keeps the same process
handle, whether the call succeeds or raises; moreover a first call that
fails to initialise stores no singleton.  (The unamended claim — at most
one instance over the whole lifetime — fails when initialisation itself
fails, see the counterexample.) -/
theorem singleton_reused_once_created {J : Type}
    (jsonLoads : String → Except PyErr J) (g : GlobalState)
    (env : List (String × String)) (procOut : List String) (conll : String) :
    (∀ inst, g.singleton = some inst →
      (callSemaforTop jsonLoads g env procOut conll).1.instancesCreated =
        g.instancesCreated
      ∧ (callSemaforTop jsonLoads g env procOut conll).1.launches = g.launches
      ∧ ∃ inst1,
          (callSemaforTop jsonLoads g env procOut conll).1.singleton = some inst1
          ∧ inst1.processId = inst.processId)
    ∧ (g.singleton = none →
        ∀ e, (startSemafor env procOut g.launches).result = .error e →
          (callSemaforTop jsonLoads g env procOut conll).1.singleton = none) := by
  constructor
  · intro inst hg
    unfold callSemaforTop
    rw [hg]
    dsimp only
    cases hc : callSemaforM jsonLoads inst conll with
    | error e =>
      exact ⟨rfl, rfl, inst, hg, rfl⟩
    | ok p =>
      obtain ⟨v, inst1⟩ := p
      exact ⟨rfl, rfl, inst1, rfl,
        callSemaforM_processId jsonLoads inst conll v inst1 hc⟩
  · intro hg e he
    unfold callSemaforTop
    rw [hg]
    dsimp only
    rw [he]

/-- C7 witness: with a singleton present, a concrete successful call
keeps the counters and the process handle. -/
theorem singleton_reused_once_created_witness :
    ((callSemaforTop (fun s => .ok s.length)
        ⟨some ⟨[], ["ab", ">>>"], 5⟩, 1, 1⟩ [] [] "x").1.instancesCreated = 1)
    ∧ ((callSemaforTop (fun s => .ok s.length)
        ⟨some ⟨[], ["ab", ">>>"], 5⟩, 1, 1⟩ [] [] "x").1.launches = 1)
    ∧ ∃ inst1, (callSemaforTop (fun s => .ok s.length)
        ⟨some ⟨[], ["ab", ">>>"], 5⟩, 1, 1⟩ [] [] "x").1.singleton = some inst1
        ∧ inst1.processId = 5 :=
  (singleton_reused_once_created (fun s => .ok s.length)
    ⟨some ⟨[], ["ab", ">>>"], 5⟩, 1, 1⟩ [] [] "x").1 ⟨[], ["ab", ">>>"], 5⟩ rfl

/-- C7 counterexample: two consecutive calls to the public entry point
whose initialisation fails (the process dies before its readiness
banner) construct two `_Semafor` instances and launch two external
processes — more than one over the program's lifetime. -/
theorem singleton_counterexample :
    (callSemaforTop (fun s => .ok s.length)
      (callSemaforTop (fun s => .ok s.length) ⟨none, 0, 0⟩
        [("SEMAFOR_HOME", "/s")] [] "x").1
      [("SEMAFOR_HOME", "/s")] [] "x").1.instancesCreated = 2
    ∧ (callSemaforTop (fun s => .ok s.length)
      (callSemaforTop (fun s => .ok s.length) ⟨none, 0, 0⟩
        [("SEMAFOR_HOME", "/s")] [] "x").1
      [("SEMAFOR_HOME", "/s")] [] "x").1.launches = 2
    ∧ (callSemaforTop (fun s => .ok s.length) ⟨none, 0, 0⟩
        [("SEMAFOR_HOME", "/s")] [] "x").2 = .error .eof := by
  refine ⟨by decide, by decide, rfl⟩

/-- C4: `add_frames` on a sentence whose parser response carries an
`"error"` field does not append an error entry and continue — line 132
(`err = {"module": module, "sentence": sid}`) reads the undefined name
`module` (the only assignment anywhere is the dict key `'module'` on
line 119), so the call raises `NameError` to the caller instead.
Evaluated here at a one-sentence document whose response is flagged with
an error field. -/
theorem error_response_raises_name_error :
    addFrames id (fun _ => ⟨true, [], []⟩) "2015-01-01T00:00:00"
      ⟨some ⟨some []⟩, [⟨1, 0, 1⟩], [⟨1, "(S)"⟩], none, none⟩ =
      .error (.nameError "module") := rfl

/-- Pointwise successful `mapM` over `Except`. -/
theorem mapM_ok_of_forall {α β : Type} (f : α → Except PyErr β) (g : α → β)
    (l : List α) (h : ∀ a ∈ l, f a = .ok (g a)) :
    l.mapM f = .ok (l.map g) := by
  induction l with
  | nil => rfl
  | cons a as ih =>
    rw [List.mapM_cons, h a (List.mem_cons_self a as),
      ih fun b hb => h b (List.mem_cons_of_mem a hb)]
    rfl

/-- C5: for an error-free sentence, a mismatch between the count of the
document's tokens for that sentence and the count of tokens in the
parser's response makes the whole `add_frames` call fail with the fatal
`AssertionError` of line 137 — no partial result is returned —
whatever trees were already processed successfully before it. -/
theorem token_count_mismatch_fatal (toConll : String → String)
    (callSem : String → SentResponse) (now : String)
    (doc docInit mid : SafArticle) (ts1 ts2 : List TreeEntry) (t : TreeEntry)
    (hInit : initArticle now doc = .ok docInit)
    (hTrees : docInit.trees = ts1 ++ t :: ts2)
    (hPrefix : ts1.foldlM (processTree toConll callSem) docInit = .ok mid)
    (hErr : (callSem (toConll t.tree)).hasError = false)
    (hLen : (sentenceTokens mid t.sentence).length ≠
      (callSem (toConll t.tree)).tokens.length) :
    addFrames toConll callSem now doc = .error .assertionError := by
  have hpt : processTree toConll callSem mid t = .error .assertionError := by
    unfold processTree
    simp [hErr, hLen]
  unfold addFrames
  rw [hInit]
  dsimp only
  rw [hTrees, List.foldlM_append, hPrefix]
  show (processTree toConll callSem mid t >>= fun i =>
    List.foldlM (processTree toConll callSem) i ts2) = Except.error .assertionError
  rw [hpt]
  rfl

/-- C5 witness: one sentence with one document token but a two-token
response. -/
theorem token_count_mismatch_fatal_witness :
    addFrames id (fun _ => ⟨false, [], ["a", "b"]⟩) "T"
      ⟨some ⟨some []⟩, [⟨1, 0, 1⟩], [⟨1, "(S)"⟩], none, none⟩ =
      .error .assertionError :=
  token_count_mismatch_fatal id (fun _ => ⟨false, [], ["a", "b"]⟩) "T"
    ⟨some ⟨some []⟩, [⟨1, 0, 1⟩], [⟨1, "(S)"⟩], none, none⟩
    ⟨some ⟨some [⟨"semafor", "T"⟩]⟩, [⟨1, 0, 1⟩], [⟨1, "(S)"⟩], some [], none⟩
    ⟨some ⟨some [⟨"semafor", "T"⟩]⟩, [⟨1, 0, 1⟩], [⟨1, "(S)"⟩], some [], none⟩
    [] [] ⟨1, "(S)"⟩ rfl rfl rfl rfl (by decide)

/-- Follows the spec's words: the token ids of one span are read off the
positions `start` up to but excluding `end` of the given token list
(a slice of the sentence's offset-sorted tokens). -/
def specSpanIds (tokens : List Token) (s : Span) : List Nat :=
  ((tokens.drop s.start).take (s.stop - s.start)).map Token.id

/-- Follows the spec's words: a target or element addresses the
concatenation of its spans' token ids. -/
def specSpanSetIds (tokens : List Token) (f : SpanSet) : List Nat :=
  (f.spans.map (specSpanIds tokens)).flatten

/-- Follows the spec's words: the record produced for one response frame
carries the sentence index, the frame's target name, the target's token
ids, and one named element per frame element of the first annotation
set. -/
def specFrameRecord (sid : Int) (tokens : List Token) (frame : SemFrame) :
    SafFrame :=
  { sentence := sid, name := frame.target.name,
    target := specSpanSetIds tokens frame.target,
    elements := (frame.annotationSets.headD ⟨[]⟩).frameElements.map
      fun a => ⟨a.name, specSpanSetIds tokens a⟩ }

/-- Reading ids off an in-range index interval equals the slice of the
token list. -/
theorem mapM_ids_range (tokens : List Token) (a n : Nat)
    (h : a + n ≤ tokens.length) :
    ((List.range' a n).mapM fun i =>
      match tokens[i]? with
      | some tok => Except.ok tok.id
      | none => Except.error PyErr.indexError) =
    .ok (((tokens.drop a).take n).map Token.id) := by
  induction n generalizing a with
  | zero => rfl
  | succ n ih =>
    have ha : a < tokens.length := by omega
    rw [List.range'_succ, List.mapM_cons, List.getElem?_eq_getElem ha]
    show (Except.ok (tokens[a]).id >>= fun x =>
      ((List.range' (a + 1) n).mapM fun i =>
        match tokens[i]? with
        | some tok => Except.ok tok.id
        | none => Except.error PyErr.indexError) >>= fun xs =>
      pure (x :: xs)) = _
    rw [ih (a + 1) (by omega)]
    rw [List.drop_eq_getElem_cons ha]
    rfl

/-- On an in-range span, the per-span extraction computes the spec's slice. -/
theorem spanTokenIds_spec (tokens : List Token) (s : Span)
    (h : s.stop ≤ tokens.length ∨ s.stop ≤ s.start) :
    spanTokenIds tokens s = .ok (specSpanIds tokens s) := by
  by_cases h0 : s.stop ≤ s.start
  · unfold spanTokenIds specSpanIds
    rw [Nat.sub_eq_zero_of_le h0]
    rfl
  · have hs : s.stop ≤ tokens.length := by
      rcases h with h | h
      · exact h
      · exact absurd h h0
    unfold spanTokenIds specSpanIds
    exact mapM_ids_range tokens s.start (s.stop - s.start) (by omega)

/-- On in-range spans, `get_tokenids` computes the spec's id list. -/
theorem get_tokenids_spec (tokens : List Token) (f : SpanSet)
    (h : ∀ s ∈ f.spans, s.stop ≤ tokens.length ∨ s.stop ≤ s.start) :
    get_tokenids tokens f = .ok (specSpanSetIds tokens f) := by
  unfold get_tokenids specSpanSetIds
  rw [mapM_ok_of_forall (spanTokenIds tokens) (specSpanIds tokens) f.spans
    fun s hs => spanTokenIds_spec tokens s (h s hs)]
  rfl

/-- On an in-range frame, `buildFrame` produces exactly the record the
spec describes. -/
theorem buildFrame_spec (sid : Int) (tokens : List Token) (frame : SemFrame)
    (hne : frame.annotationSets ≠ [])
    (h1 : ∀ s ∈ frame.target.spans, s.stop ≤ tokens.length ∨ s.stop ≤ s.start)
    (h2 : ∀ a ∈ (frame.annotationSets.headD ⟨[]⟩).frameElements,
      ∀ s ∈ a.spans, s.stop ≤ tokens.length ∨ s.stop ≤ s.start) :
    buildFrame sid tokens frame = .ok (specFrameRecord sid tokens frame) := by
  obtain ⟨aset, rest, hl⟩ : ∃ a r, frame.annotationSets = a :: r := by
    cases hx : frame.annotationSets with
    | nil => exact absurd hx hne
    | cons a r => exact ⟨a, r, rfl⟩
  unfold buildFrame
  rw [get_tokenids_spec tokens frame.target h1, hl]
  dsimp only [List.head?]
  rw [mapM_ok_of_forall _
    (fun a => SafElem.mk a.name (specSpanSetIds tokens a)) aset.frameElements
    fun a ha => by
      rw [get_tokenids_spec tokens a (h2 a (by rw [hl]; exact ha))]
      rfl]
  unfold specFrameRecord
  rw [hl]
  rfl

/-- C9: for an error-free sentence whose token counts agree, the frame
records produced by `add_frames`' per-tree processing are exactly those
the spec describes: for each response frame (with in-range spans and a
nonempty annotation-set list), the target's (and each element's)
token-id list takes positions `span.start` up to but excluding
`span.stop` in the sentence's tokens sorted by numeric offset
(`sentenceTokens`) and reads off their ids, and the record carries the
sentence index and the frame's target name (`specFrameRecord`); the new
records are appended to the document's frame list. -/
theorem frames_stitched_per_spec (toConll : String → String)
    (callSem : String → SentResponse) (doc : SafArticle) (t : TreeEntry)
    (hErr : (callSem (toConll t.tree)).hasError = false)
    (hLen : (sentenceTokens doc t.sentence).length =
      (callSem (toConll t.tree)).tokens.length)
    (hFr : ∀ fr ∈ (callSem (toConll t.tree)).frames,
      fr.annotationSets ≠ []
      ∧ (∀ s ∈ fr.target.spans,
          s.stop ≤ (sentenceTokens doc t.sentence).length ∨ s.stop ≤ s.start)
      ∧ (∀ a ∈ (fr.annotationSets.headD ⟨[]⟩).frameElements, ∀ s ∈ a.spans,
          s.stop ≤ (sentenceTokens doc t.sentence).length ∨ s.stop ≤ s.start)) :
    processTree toConll callSem doc t =
      .ok { doc with frames := some (doc.frames.getD [] ++
        (callSem (toConll t.tree)).frames.map
          (specFrameRecord t.sentence (sentenceTokens doc t.sentence))) } := by
  have hb := mapM_ok_of_forall
    (buildFrame t.sentence (sentenceTokens doc t.sentence))
    (specFrameRecord t.sentence (sentenceTokens doc t.sentence))
    (callSem (toConll t.tree)).frames
    fun fr hfr => buildFrame_spec t.sentence (sentenceTokens doc t.sentence) fr
      (hFr fr hfr).1 (hFr fr hfr).2.1 (hFr fr hfr).2.2
  unfold processTree
  dsimp only
  rw [hErr, if_neg Bool.false_ne_true, if_pos hLen, hb]

/-- C9 witness: a concrete sentence whose tokens are supplied out of
offset order; the produced record addresses them in sorted order. -/
theorem frames_stitched_per_spec_witness :
    processTree id
      (fun _ => ⟨false, [⟨⟨"F", [⟨0, 2⟩]⟩, [⟨[⟨"E", [⟨1, 2⟩]⟩]⟩]⟩], ["a", "b"]⟩)
      ⟨some ⟨some []⟩, [⟨1, 2, 11⟩, ⟨1, 1, 10⟩, ⟨2, 1, 20⟩], [⟨1, "t"⟩],
        some [⟨9, "old", [], []⟩], none⟩ ⟨1, "t"⟩ =
      .ok ⟨some ⟨some []⟩, [⟨1, 2, 11⟩, ⟨1, 1, 10⟩, ⟨2, 1, 20⟩], [⟨1, "t"⟩],
        some [⟨9, "old", [], []⟩, ⟨1, "F", [10, 11], [⟨"E", [11]⟩]⟩], none⟩ := by
  have h := frames_stitched_per_spec id
    (fun _ => ⟨false, [⟨⟨"F", [⟨0, 2⟩]⟩, [⟨[⟨"E", [⟨1, 2⟩]⟩]⟩]⟩], ["a", "b"]⟩)
    ⟨some ⟨some []⟩, [⟨1, 2, 11⟩, ⟨1, 1, 10⟩, ⟨2, 1, 20⟩], [⟨1, "t"⟩],
      some [⟨9, "old", [], []⟩], none⟩ ⟨1, "t"⟩ rfl (by decide) (by decide)
  rw [h]
  rfl

/-- A successful per-tree step only touches the `frames` field. -/
theorem processTree_ok_inv (toConll : String → String)
    (callSem : String → SentResponse) (doc : SafArticle) (t : TreeEntry)
    (doc1 : SafArticle)
    (h : processTree toConll callSem doc t = .ok doc1) :
    doc1.header = doc.header ∧ doc1.tokens = doc.tokens
    ∧ doc1.trees = doc.trees ∧ doc1.errors = doc.errors := by
  unfold processTree at h
  dsimp only at h
  split_ifs at h with h1 h2
  all_goals first
  | exact Except.noConfusion h
  | cases hm : (callSem (toConll t.tree)).frames.mapM
        (buildFrame t.sentence (sentenceTokens doc t.sentence)) with
    | error e =>
      rw [hm] at h
      exact Except.noConfusion h
    | ok nf =>
      rw [hm] at h
      cases h
      exact ⟨rfl, rfl, rfl, rfl⟩

/-- The whole tree loop only touches the `frames` field when it
succeeds. -/
theorem foldlM_processTree_inv (toConll : String → String)
    (callSem : String → SentResponse) (ts : List TreeEntry)
    (doc doc1 : SafArticle)
    (h : ts.foldlM (processTree toConll callSem) doc = .ok doc1) :
    doc1.header = doc.header ∧ doc1.tokens = doc.tokens
    ∧ doc1.trees = doc.trees ∧ doc1.errors = doc.errors := by
  induction ts generalizing doc with
  | nil =>
    cases h
    exact ⟨rfl, rfl, rfl, rfl⟩
  | cons t ts ih =>
    rw [List.foldlM_cons] at h
    cases hp : processTree toConll callSem doc t with
    | error e =>
      rw [hp] at h
      exact Except.noConfusion h
    | ok mid =>
      rw [hp] at h
      have hmid : ts.foldlM (processTree toConll callSem) mid = .ok doc1 := h
      obtain ⟨a1, a2, a3, a4⟩ := processTree_ok_inv toConll callSem doc t mid hp
      obtain ⟨b1, b2, b3, b4⟩ := ih mid hmid
      exact ⟨b1.trans a1, b2.trans a2, b3.trans a3, b4.trans a4⟩

/-- C10: `add_frames` returns the mutated input document itself.  On
entry it unconditionally resets `frames` to the empty list — the result
never depends on any pre-existing frames — and appends a provenance
record to `header['processed']`, so a document without a `header`
mapping holding a `processed` list fails with `KeyError` before the
parser collaborators are ever consulted (the outcome is identical for
any conversion and parser oracles); on success the returned document is
the input document with only its `frames` and `header` fields updated
(tokens, trees and errors untouched) and the provenance record
appended. -/
theorem addFrames_in_place_effects (toConll : String → String)
    (callSem : String → SentResponse) (now : String) (doc : SafArticle) :
    (doc.header = none →
      ∀ tc2 cs2, addFrames toConll callSem now doc = .error (.keyError "header")
        ∧ addFrames tc2 cs2 now doc = .error (.keyError "header"))
    ∧ (∀ hdr, doc.header = some hdr → hdr.processed = none →
      ∀ tc2 cs2,
        addFrames toConll callSem now doc = .error (.keyError "processed")
        ∧ addFrames tc2 cs2 now doc = .error (.keyError "processed"))
    ∧ (∀ f1 f2, addFrames toConll callSem now { doc with frames := f1 }
        = addFrames toConll callSem now { doc with frames := f2 })
    ∧ (∀ doc1, addFrames toConll callSem now doc = .ok doc1 →
        doc1.tokens = doc.tokens ∧ doc1.trees = doc.trees
        ∧ doc1.errors = doc.errors
        ∧ ∃ hdr procd, doc.header = some hdr ∧ hdr.processed = some procd
            ∧ doc1.header = some ⟨some (procd ++ [⟨"semafor", now⟩])⟩) := by
  have hinitNone : doc.header = none →
      ∀ tc2 : String → String, ∀ cs2 : String → SentResponse,
      addFrames tc2 cs2 now doc = .error (.keyError "header") := by
    intro hh tc2 cs2
    unfold addFrames initArticle
    dsimp only
    rw [hh]
  have hinitNoProc : ∀ hdr, doc.header = some hdr → hdr.processed = none →
      ∀ tc2 : String → String, ∀ cs2 : String → SentResponse,
      addFrames tc2 cs2 now doc = .error (.keyError "processed") := by
    intro hdr hh hp tc2 cs2
    unfold addFrames initArticle
    dsimp only
    rw [hh]
    dsimp only
    rw [hp]
  refine ⟨fun hh tc2 cs2 => ⟨hinitNone hh toConll callSem, hinitNone hh tc2 cs2⟩,
    fun hdr hh hp tc2 cs2 => ⟨hinitNoProc hdr hh hp toConll callSem,
      hinitNoProc hdr hh hp tc2 cs2⟩, ?_, ?_⟩
  · intro f1 f2
    rfl
  · intro doc1 h
    unfold addFrames at h
    cases hi : initArticle now doc with
    | error e => rw [hi] at h; exact Except.noConfusion h
    | ok d =>
      rw [hi] at h
      obtain ⟨b1, b2, b3, b4⟩ := foldlM_processTree_inv toConll callSem
        d.trees d doc1 h
      unfold initArticle at hi
      dsimp only at hi
      cases hh : doc.header with
      | none => rw [hh] at hi; exact Except.noConfusion hi
      | some hdr =>
        rw [hh] at hi
        dsimp only at hi
        cases hp : hdr.processed with
        | none => rw [hp] at hi; exact Except.noConfusion hi
        | some procd =>
          rw [hp] at hi
          cases hi
          exact ⟨b2, b3, b4, hdr, procd, rfl, hp, by rw [b1]⟩

/-- C10 witness: a concrete successful run (frames reset, provenance
appended, other fields kept), a concrete missing-header failure, and
independence from the pre-existing frames, all through the theorem. -/
theorem addFrames_in_place_effects_witness :
    addFrames id (fun _ => ⟨false, [], ["a"]⟩) "T"
      ⟨some ⟨some []⟩, [⟨1, 0, 7⟩], [⟨1, "t"⟩], some [⟨9, "old", [], []⟩], none⟩ =
      .ok ⟨some ⟨some [⟨"semafor", "T"⟩]⟩, [⟨1, 0, 7⟩], [⟨1, "t"⟩], some [], none⟩
    ∧ (⟨some ⟨some [⟨"semafor", "T"⟩]⟩, [⟨1, 0, 7⟩], [⟨1, "t"⟩], some [],
        none⟩ : SafArticle).tokens =
      (⟨some ⟨some []⟩, [⟨1, 0, 7⟩], [⟨1, "t"⟩], some [⟨9, "old", [], []⟩],
        none⟩ : SafArticle).tokens
    ∧ addFrames id (fun _ => ⟨false, [], ["a"]⟩) "T"
        ⟨none, [], [⟨1, "t"⟩], some [⟨9, "old", [], []⟩], none⟩ =
      .error (.keyError "header")
    ∧ addFrames id (fun _ => ⟨false, [], ["a"]⟩) "T"
        ⟨some ⟨some []⟩, [⟨1, 0, 7⟩], [⟨1, "t"⟩], none, none⟩ =
      addFrames id (fun _ => ⟨false, [], ["a"]⟩) "T"
        ⟨some ⟨some []⟩, [⟨1, 0, 7⟩], [⟨1, "t"⟩], some [⟨9, "old", [], []⟩],
          none⟩ := by
  have hok : addFrames id (fun _ => ⟨false, [], ["a"]⟩) "T"
      ⟨some ⟨some []⟩, [⟨1, 0, 7⟩], [⟨1, "t"⟩], some [⟨9, "old", [], []⟩], none⟩ =
      .ok ⟨some ⟨some [⟨"semafor", "T"⟩]⟩, [⟨1, 0, 7⟩], [⟨1, "t"⟩], some [],
        none⟩ := rfl
  refine ⟨hok, ?_, ?_, ?_⟩
  · exact ((addFrames_in_place_effects id (fun _ => ⟨false, [], ["a"]⟩) "T"
      ⟨some ⟨some []⟩, [⟨1, 0, 7⟩], [⟨1, "t"⟩], some [⟨9, "old", [], []⟩],
        none⟩).2.2.2 _ hok).1
  · exact ((addFrames_in_place_effects id (fun _ => ⟨false, [], ["a"]⟩) "T"
      ⟨none, [], [⟨1, "t"⟩], some [⟨9, "old", [], []⟩], none⟩).1 rfl id
        (fun _ => ⟨false, [], ["a"]⟩)).1
  · exact (addFrames_in_place_effects id (fun _ => ⟨false, [], ["a"]⟩) "T"
      ⟨some ⟨some []⟩, [⟨1, 0, 7⟩], [⟨1, "t"⟩], some [], none⟩).2.2.1
        none (some [⟨9, "old", [], []⟩])

/-- A thread is mid-critical-section: its remaining program is a suffix
of its wire events followed by the final release. -/
def MidProg (body : List WireAct) (p : List ThreadAct) : Prop :=
  ∃ w : List WireAct, w <:+ body ∧ p = w.map ThreadAct.wire ++ [.release]

/-- The inductive invariant of the lock system: every thread is either
not yet started, mid-section, or finished; mid-section threads are
exactly the lock owner; and the trace respects the ownership discipline
(`traceOwner` validates it up to the current owner). -/
structure SysInv (bodies : Nat → List WireAct) (s : LockSys) : Prop where
  progShape : ∀ t, s.progs t = callerProgram (bodies t)
    ∨ MidProg (bodies t) (s.progs t) ∨ s.progs t = []
  midOwner : ∀ t, MidProg (bodies t) (s.progs t) → s.owner = some t
  ownerMid : ∀ t, s.owner = some t → MidProg (bodies t) (s.progs t)
  traceOK : traceOwner s.trace none = some s.owner

/-- A mid-section program never begins with an acquire. -/
theorem midProg_not_acquire (body : List WireAct) (p : List ThreadAct)
    (h : MidProg body p) (r : List ThreadAct)
    (hp : p = ThreadAct.acquire :: r) : False := by
  obtain ⟨w, _, hw⟩ := h
  rw [hp] at hw
  cases w with
  | nil => simp at hw
  | cons x xs => simp at hw

/-- A mid-section program is nonempty. -/
theorem midProg_not_nil (body : List WireAct) (h : MidProg body []) :
    False := by
  obtain ⟨w, _, hw⟩ := h
  cases w with
  | nil => simp at hw
  | cons x xs => simp at hw

/-- Running `traceOwner` over an appended trace runs the two parts in
sequence. -/
theorem traceOwner_append (tr1 tr2 : List (Nat × ThreadAct))
    (o : Option Nat) :
    traceOwner (tr1 ++ tr2) o =
      Option.bind (traceOwner tr1 o) (traceOwner tr2) := by
  induction tr1 generalizing o with
  | nil => rfl
  | cons e tr ih =>
    show (match stepOwner e o with
      | none => none
      | some o1 => traceOwner (tr ++ tr2) o1) =
      Option.bind (match stepOwner e o with
        | none => none
        | some o1 => traceOwner tr o1) (traceOwner tr2)
    cases stepOwner e o with
    | none => rfl
    | some o1 => exact ih o1

/-- The invariant holds initially. -/
theorem sysInv_init (bodies : Nat → List WireAct) :
    SysInv bodies (initSys bodies) := by
  refine ⟨fun t => Or.inl rfl, fun t hm => ?_, fun t ho => ?_, rfl⟩
  · exact (midProg_not_acquire (bodies t) ((initSys bodies).progs t) hm
      (List.map ThreadAct.wire (bodies t) ++ [ThreadAct.release]) rfl).elim
  · exact Option.noConfusion ho

/-- The invariant is preserved by every step. -/
theorem sysInv_step (bodies : Nat → List WireAct) (s s1 : LockSys)
    (hinv : SysInv bodies s) (hstep : LockStep s s1) :
    SysInv bodies s1 := by
  cases hstep with
  | acq t rest hp ho =>
    have hmid : MidProg (bodies t) rest := by
      rcases hinv.progShape t with hfull | hm | hnil
      · rw [hp] at hfull
        unfold callerProgram at hfull
        injection hfull with h1 h2
        exact ⟨bodies t, List.suffix_refl _, h2⟩
      · exact (midProg_not_acquire (bodies t) (s.progs t) hm rest hp).elim
      · rw [hp] at hnil; exact List.noConfusion hnil
    refine ⟨fun u => ?_, fun u hm => ?_, fun u hu => ?_, ?_⟩
    · by_cases hut : u = t
      · subst hut
        exact Or.inr (Or.inl (by simpa [updProg] using hmid))
      · simpa [updProg, hut] using hinv.progShape u
    · by_cases hut : u = t
      · simp [hut]
      · dsimp only [updProg] at hm
        rw [if_neg hut] at hm
        rw [hinv.midOwner u hm] at ho
        exact Option.noConfusion ho
    · injection hu with hu
      subst hu
      simpa [updProg] using hmid
    · show traceOwner (s.trace ++ [(t, ThreadAct.acquire)]) none = some (some t)
      rw [traceOwner_append, hinv.traceOK, ho]
      rfl
  | rel t rest hp ho =>
    have hrest : rest = [] := by
      rcases hinv.progShape t with hfull | hm | hnil
      · rw [hp] at hfull
        unfold callerProgram at hfull
        exact absurd hfull (by simp)
      · obtain ⟨w, _, hw⟩ := hm
        rw [hp] at hw
        cases w with
        | nil => simpa using hw.symm
        | cons x xs => simp at hw
      · rw [hp] at hnil; exact List.noConfusion hnil
    subst hrest
    refine ⟨fun u => ?_, fun u hm => ?_, fun u hu => ?_, ?_⟩
    · by_cases hut : u = t
      · subst hut; simp [updProg]
      · simpa [updProg, hut] using hinv.progShape u
    · by_cases hut : u = t
      · subst hut
        dsimp only [updProg] at hm
        rw [if_pos rfl] at hm
        exact (midProg_not_nil (bodies u) hm).elim
      · dsimp only [updProg] at hm
        rw [if_neg hut] at hm
        have hou := hinv.midOwner u hm
        rw [ho] at hou
        injection hou with hou
        exact absurd hou.symm hut
    · exact Option.noConfusion hu
    · show traceOwner (s.trace ++ [(t, ThreadAct.release)]) none = some none
      rw [traceOwner_append, hinv.traceOK, ho]
      simp [traceOwner, stepOwner]
  | wireStep t w rest hp =>
    have hm0 : MidProg (bodies t) (s.progs t) := by
      rcases hinv.progShape t with hfull | hm | hnil
      · rw [hp] at hfull
        unfold callerProgram at hfull
        exact absurd hfull (by simp)
      · exact hm
      · rw [hp] at hnil; exact List.noConfusion hnil
    have ho : s.owner = some t := hinv.midOwner t hm0
    have hmid : MidProg (bodies t) rest := by
      obtain ⟨ws, hsuf, hw⟩ := hm0
      rw [hp] at hw
      cases ws with
      | nil => simp at hw
      | cons x xs =>
        refine ⟨xs, List.IsSuffix.trans ⟨[x], rfl⟩ hsuf, ?_⟩
        simp only [List.map_cons, List.cons_append] at hw
        injection hw with h1 h2
    refine ⟨fun u => ?_, fun u hm => ?_, fun u hu => ?_, ?_⟩
    · by_cases hut : u = t
      · subst hut
        exact Or.inr (Or.inl (by simpa [updProg] using hmid))
      · simpa [updProg, hut] using hinv.progShape u
    · by_cases hut : u = t
      · subst hut; exact ho
      · dsimp only [updProg] at hm
        rw [if_neg hut] at hm
        have hou := hinv.midOwner u hm
        rw [ho] at hou
        injection hou with hou
        exact absurd hou.symm hut
    · show MidProg (bodies u) ((updProg s.progs t rest) u)
      rw [show s.owner = some u from hu] at ho
      injection ho with ho
      subst ho
      simpa [updProg] using hmid
    · show traceOwner (s.trace ++ [(t, ThreadAct.wire w)]) none = some s.owner
      rw [traceOwner_append, hinv.traceOK, ho]
      simp [traceOwner, stepOwner]

/-- The invariant holds in every reachable state. -/
theorem sysInv_reach (bodies : Nat → List WireAct) (s : LockSys)
    (h : Relation.ReflTransGen LockStep (initSys bodies) s) :
    SysInv bodies s := by
  induction h with
  | refl => exact sysInv_init bodies
  | tail h1 h2 ih => exact sysInv_step bodies _ _ ih h2

/-- While a thread owns the lock and has not released it, every event
the ownership discipline admits is that thread's own. -/
theorem owner_run_all_own (tr : List (Nat × ThreadAct)) (t : Nat)
    (o2 : Option Nat) (h : traceOwner tr (some t) = some o2)
    (hnr : (t, ThreadAct.release) ∉ tr) :
    ∀ e ∈ tr, e.1 = t := by
  induction tr generalizing o2 with
  | nil =>
    intro e he
    exact absurd he (List.not_mem_nil e)
  | cons e0 tr ih =>
    obtain ⟨u, a⟩ := e0
    intro e he
    cases a with
    | acquire => simp [traceOwner, stepOwner] at h
    | release =>
      by_cases hut : u = t
      · subst hut
        exact absurd (List.mem_cons_self _ _) hnr
      · simp [traceOwner, stepOwner, hut] at h
    | wire w =>
      by_cases hut : u = t
      · rcases List.mem_cons.mp he with he0 | hetr
        · rw [he0]
          exact hut
        · have h1 : traceOwner tr (some t) = some o2 := by
            simpa [traceOwner, stepOwner, hut] using h
          exact ih o2 h1 (fun hmem => hnr (List.mem_cons_of_mem _ hmem)) e hetr
      · simp [traceOwner, stepOwner, hut] at h

/-- C8: callers' exchanges are never interleaved.  In every execution of
the interleaving semantics — where each caller's program wraps its whole
wire-level exchange (lazy startup included) in `_SINGLETON_LOCK`'s
acquire/release, exactly as lines 89-92 do, and where the lock
constrains only acquire and release, never the wire events themselves —
every event of a reachable trace lying between a thread's acquire and
its matching release belongs to that thread: no other caller performs
any write, flush or read (nor any lock action) while an exchange is in
flight, so at most one exchange is ever in flight. -/
theorem lock_no_interleaving (bodies : Nat → List WireAct) (s : LockSys)
    (hreach : Relation.ReflTransGen LockStep (initSys bodies) s)
    (t : Nat) (tr1 tr2 tr3 : List (Nat × ThreadAct))
    (hdec : s.trace =
      tr1 ++ (t, ThreadAct.acquire) :: (tr2 ++ (t, ThreadAct.release) :: tr3))
    (hnr : (t, ThreadAct.release) ∉ tr2) :
    ∀ e ∈ tr2, e.1 = t := by
  have htr := (sysInv_reach bodies s hreach).traceOK
  rw [hdec, traceOwner_append] at htr
  cases h1 : traceOwner tr1 none with
  | none =>
    rw [h1] at htr
    exact Option.noConfusion htr
  | some o1 =>
    rw [h1] at htr
    cases o1 with
    | some u =>
      exact Option.noConfusion htr
    | none =>
      have htr3 : traceOwner (tr2 ++ (t, ThreadAct.release) :: tr3) (some t) =
          some s.owner := htr
      rw [traceOwner_append] at htr3
      cases h2 : traceOwner tr2 (some t) with
      | none =>
        rw [h2] at htr3
        exact Option.noConfusion htr3
      | some o2 => exact owner_run_all_own tr2 t o2 h2 hnr

/-- C8 witness: a concrete two-event critical section of thread 0,
reached by three steps of the semantics; the event between its acquire
and release is its own. -/
theorem lock_no_interleaving_witness :
    ((0 : Nat), ThreadAct.wire WireAct.flush).1 = 0 := by
  have hchain := Relation.ReflTransGen.tail (Relation.ReflTransGen.tail
    (Relation.ReflTransGen.tail (Relation.ReflTransGen.refl)
      (LockStep.acq (initSys fun _ => [WireAct.flush]) 0 _ rfl rfl))
    (LockStep.wireStep _ 0 WireAct.flush _ rfl))
    (LockStep.rel _ 0 _ rfl rfl)
  exact lock_no_interleaving (fun _ => [WireAct.flush]) _ hchain 0 []
    [(0, ThreadAct.wire WireAct.flush)] [] rfl (by decide)
    (0, ThreadAct.wire WireAct.flush) (List.mem_singleton.mpr rfl)
